import Mathlib

/-!
Verification development for the bass thunk execution core.

The definitions below are a shallow embedding of the repository's Go
sources:

* `pkg/bass` thunk model and Protobuf wire marshalling
  (`Thunk.MarshalProto`, `ThunkMountSource.MarshalProto`,
  `ThunkImageRef.Ref`, ...);
* `pkg/runtimes/buildkit.go`: the LLB build-graph translator
  (`(*builder).llb`, `(*builder).imageRef`, `(*builder).initializeMount`,
  `(*builder).shim`), the solver driver (`Run`, `Prune`, `NewBuildkit`);
* the runtime registry (`RegisterRuntime` / `Init`).

Machine-specific details that the Go code delegates to the environment
(the network, the filesystem, the buildkit solver) are represented by
explicit parameters; everything the repository itself computes is
translated function-for-function.
-/

namespace Bass

/-- A bass value, as far as the wire marshaller is concerned: the scalar
constructors plus arrays (`Pair`/`Empty` in Go) and objects (`*Scope` in
Go, a list of name/value bindings iterated in binding order). -/
inductive Value where
  | null
  | bool (b : Bool)
  | int (n : Int)
  | str (s : String)
  | array (vs : List Value)
  | object (bs : List (String × Value))

/-- OCI platform, from `Platform` in the thunk model: `{os, arch}` with
empty `arch` meaning "any". -/
structure Platform where
  os : String
  arch : String
  deriving DecidableEq

/-- `FileOrDirPath`: a relative, slash-canonical file or directory path. -/
inductive FileOrDirPath where
  | file (p : String)
  | dir (p : String)
  deriving DecidableEq

/-- `HostPath`: a context directory on the dispatching machine plus a
subpath inside it. -/
structure HostPath where
  contextDir : String
  path : FileOrDirPath
  deriving DecidableEq

/-- `FSPath`: a path inside an embedded filesystem, identified by `id`. -/
structure FSPath where
  id : String
  path : FileOrDirPath
  deriving DecidableEq

/-- `Secret`: a named secret together with its bytes (field `secret` in
Go, revealed via `Reveal()`); bytes are modelled as a `String`. -/
structure Secret where
  name : String
  bytes : String
  deriving DecidableEq

mutual

/-- The thunk record (`Thunk` in `pkg/bass`): image, command, args,
stdin, env bindings, working dir, mounts, labels and the insecure flag.
`env` and `labels` model `*Scope` values as binding lists in iteration
order. -/
inductive Thunk where
  | mk (image : Option ThunkImage) (cmd : ThunkCmd) (args : List Value) (stdin : List Value)
       (env : List (String × Value)) (dir : Option ThunkDir) (mounts : List ThunkMount)
       (labels : List (String × Value)) (insecure : Bool)

/-- `ThunkImage`: either a registry/archive reference or a lower thunk
whose workdir becomes the rootfs. -/
inductive ThunkImage where
  | ref (r : ThunkImageRef)
  | thunk (t : Thunk)

/-- `ThunkImageRef`: platform, optional repository, optional OCI-archive
file (a thunk output), tag and digest.  Absent string fields are `""`,
as in Go. -/
inductive ThunkImageRef where
  | mk (platform : Platform) (repository : String) (file : Option ThunkPath)
       (tag : String) (digest : String)

/-- `ThunkPath`: a path inside the output tree of another thunk. -/
inductive ThunkPath where
  | mk (thunk : Thunk) (path : FileOrDirPath)

/-- `ThunkCmd`: the command to run, a closed variant over path kinds. -/
inductive ThunkCmd where
  | cmd (c : String)
  | file (f : String)
  | thunk (tp : ThunkPath)
  | host (h : HostPath)
  | fs (f : FSPath)

/-- `ThunkDir`: the working directory variant. -/
inductive ThunkDir where
  | dir (d : String)
  | thunkDir (tp : ThunkPath)
  | hostDir (h : HostPath)

/-- `ThunkMount`: `{source, target}`. -/
inductive ThunkMount where
  | mk (source : ThunkMountSource) (target : FileOrDirPath)

/-- `ThunkMountSource`: the closed mount-source variant. -/
inductive ThunkMountSource where
  | thunkPath (tp : ThunkPath)
  | host (h : HostPath)
  | fs (f : FSPath)
  | cache (c : FileOrDirPath)
  | secret (s : Secret)

end

/-! ## Protobuf wire schema

Mirror of the `pkg/proto` messages targeted by the `MarshalProto`
methods.  Optional scalar fields of the proto messages are `Option`s;
`oneof` fields are sums.  Per the wire schema (spec section 6) the
`Thunk` message carries image, cmd, args, env, dir, mounts, labels and
insecure -- there is no stdin field, and `Thunk.MarshalProto` never
writes one. -/

/-- Wire value (`proto.Value`, a tagged sum over the message kinds the
marshaller produces). -/
inductive PValue where
  | null
  | bool (b : Bool)
  | int (n : Int)
  | str (s : String)
  | array (vs : List PValue)
  | object (bs : List (String × PValue))

/-- `proto.Platform`. -/
structure PPlatform where
  os : String
  arch : String

/-- `proto.FilesystemPath` (`oneof` file/dir). -/
inductive PFilesystemPath where
  | file (p : String)
  | dir (p : String)

/-- `proto.HostPath`. -/
structure PHostPath where
  context : String
  path : PFilesystemPath

/-- `proto.FSPath`. -/
structure PFSPath where
  id : String
  path : PFilesystemPath

/-- `proto.Secret` (name plus value bytes). -/
structure PSecret where
  name : String
  value : String

mutual

/-- `proto.Thunk`.  Note: no stdin field. -/
inductive PThunk where
  | mk (image : Option PThunkImage) (cmd : PThunkCmd) (args : List PValue)
       (env : List (String × PValue)) (dir : Option PThunkDir) (mounts : List PThunkMount)
       (labels : List (String × PValue)) (insecure : Bool)

/-- `proto.ThunkImage` (`oneof` ref_image/thunk_image). -/
inductive PThunkImage where
  | refImage (r : PThunkImageRef)
  | thunkImage (t : PThunk)

/-- `proto.ThunkImageRef`: platform, optional tag and digest, and a
`oneof` source of file or repository. -/
inductive PThunkImageRef where
  | mk (platform : PPlatform) (tag : Option String) (digest : Option String)
       (source : Option (PThunkPath ⊕ String))

/-- `proto.ThunkPath`. -/
inductive PThunkPath where
  | mk (thunk : PThunk) (path : PFilesystemPath)

/-- `proto.ThunkCmd` (`oneof`). -/
inductive PThunkCmd where
  | commandCmd (c : String)
  | fileCmd (f : String)
  | thunkCmd (tp : PThunkPath)
  | hostCmd (h : PHostPath)
  | fsCmd (f : PFSPath)

/-- `proto.ThunkDir` (`oneof`). -/
inductive PThunkDir where
  | localDir (d : String)
  | thunkDir (tp : PThunkPath)
  | hostDir (h : PHostPath)

/-- `proto.ThunkMount`. -/
inductive PThunkMount where
  | mk (source : PThunkMountSource) (target : PFilesystemPath)

/-- `proto.ThunkMountSource` (`oneof`); the cache arm is
`proto.CachePath` with an `Id` and a nested path. -/
inductive PThunkMountSource where
  | thunkSource (tp : PThunkPath)
  | hostSource (h : PHostPath)
  | fsSource (f : PFSPath)
  | cacheSource (id : String) (path : PFilesystemPath)
  | secretSource (s : PSecret)

end

/-! ## Wire marshalling

Straight translation of the `MarshalProto` methods.  In the Lean model
every variant value has exactly one arm populated, so the Go error
branches for "no arm set" cannot arise and marshalling is total. -/

/-- `MarshalProto` on values (`Null`, `Bool`, `Int`, `String`, `Pair`,
`Empty`, `*Scope`). -/
def valueMarshalProto : Value → PValue
  | .null => .null
  | .bool b => .bool b
  | .int n => .int n
  | .str s => .str s
  | .array vs => .array (valuesMarshalProto vs)
  | .object bs => .object (bindingsMarshalProto bs)
where
  valuesMarshalProto : List Value → List PValue
    | [] => []
    | v :: vs => valueMarshalProto v :: valuesMarshalProto vs
  bindingsMarshalProto : List (String × Value) → List (String × PValue)
    | [] => []
    | (n, v) :: bs => (n, valueMarshalProto v) :: bindingsMarshalProto bs

/-- `FileOrDirPath.MarshalProto`. -/
def fileOrDirPathMarshalProto : FileOrDirPath → PFilesystemPath
  | .file p => .file p
  | .dir p => .dir p

/-- `HostPath.MarshalProto`. -/
def hostPathMarshalProto (h : HostPath) : PHostPath :=
  ⟨h.contextDir, fileOrDirPathMarshalProto h.path⟩

/-- `FSPath.MarshalProto`. -/
def fsPathMarshalProto (f : FSPath) : PFSPath :=
  ⟨f.id, fileOrDirPathMarshalProto f.path⟩

/-- `Secret.MarshalProto`: the wire message carries the name and the
secret bytes (`Value: value.secret`). -/
def secretMarshalProto (s : Secret) : PSecret :=
  ⟨s.name, s.bytes⟩

mutual

/-- `Thunk.MarshalProto` (unnamed part_002, lines 905-999).  Faithful to
the source: the `value.Stdin` loop appends its encoded values to
`thunk.Args` (lines 935-942), after the `value.Args` loop, and no stdin
field is written. -/
def thunkMarshalProto : Thunk → PThunk
  | .mk image cmd args stdin env dir mounts labels insecure =>
    .mk (imageOptMarshalProto image) (thunkCmdMarshalProto cmd)
      (args.map valueMarshalProto ++ stdin.map valueMarshalProto)
      (env.map (fun b => (b.1, valueMarshalProto b.2)))
      (dirOptMarshalProto dir) (mountsMarshalProto mounts)
      (labels.map (fun b => (b.1, valueMarshalProto b.2)))
      insecure

/-- Marshalling of the optional image field. -/
def imageOptMarshalProto : Option ThunkImage → Option PThunkImage
  | none => none
  | some i => some (thunkImageMarshalProto i)

/-- `ThunkImage.MarshalProto`. -/
def thunkImageMarshalProto : ThunkImage → PThunkImage
  | .ref r => .refImage (thunkImageRefMarshalProto r)
  | .thunk t => .thunkImage (thunkMarshalProto t)

/-- `ThunkImageRef.MarshalProto`: tag and digest only when non-empty;
the source `oneof` prefers the file over the repository, and is left
unset when the file is absent and the repository empty. -/
def thunkImageRefMarshalProto : ThunkImageRef → PThunkImageRef
  | .mk platform repository file tag digest =>
    .mk ⟨platform.os, platform.arch⟩
      (if tag = "" then none else some tag)
      (if digest = "" then none else some digest)
      (match file with
       | some tp => some (.inl (thunkPathMarshalProto tp))
       | none => if repository = "" then none else some (.inr repository))

/-- `ThunkPath.MarshalProto`. -/
def thunkPathMarshalProto : ThunkPath → PThunkPath
  | .mk t p => .mk (thunkMarshalProto t) (fileOrDirPathMarshalProto p)

/-- `ThunkCmd.MarshalProto`. -/
def thunkCmdMarshalProto : ThunkCmd → PThunkCmd
  | .cmd c => .commandCmd c
  | .file f => .fileCmd f
  | .thunk tp => .thunkCmd (thunkPathMarshalProto tp)
  | .host h => .hostCmd (hostPathMarshalProto h)
  | .fs f => .fsCmd (fsPathMarshalProto f)

/-- Marshalling of the optional dir field. -/
def dirOptMarshalProto : Option ThunkDir → Option PThunkDir
  | none => none
  | some d => some (thunkDirMarshalProto d)

/-- `ThunkDir.MarshalProto`. -/
def thunkDirMarshalProto : ThunkDir → PThunkDir
  | .dir d => .localDir d
  | .thunkDir tp => .thunkDir (thunkPathMarshalProto tp)
  | .hostDir h => .hostDir (hostPathMarshalProto h)

/-- Marshalling of the mounts list. -/
def mountsMarshalProto : List ThunkMount → List PThunkMount
  | [] => []
  | m :: ms => thunkMountMarshalProto m :: mountsMarshalProto ms

/-- `ThunkMount.MarshalProto`. -/
def thunkMountMarshalProto : ThunkMount → PThunkMount
  | .mk src tgt => .mk (thunkMountSourceMarshalProto src) (fileOrDirPathMarshalProto tgt)

/-- `ThunkMountSource.MarshalProto` (unnamed part_002, lines 198-254).
The cache arm emits `proto.CachePath` with `Id: ""` (marked `TODO` in
the source) and the path nested inside. -/
def thunkMountSourceMarshalProto : ThunkMountSource → PThunkMountSource
  | .thunkPath tp => .thunkSource (thunkPathMarshalProto tp)
  | .host h => .hostSource (hostPathMarshalProto h)
  | .fs f => .fsSource (fsPathMarshalProto f)
  | .cache c => .cacheSource "" (fileOrDirPathMarshalProto c)
  | .secret s => .secretSource (secretMarshalProto s)

end

/-! ## Canonical form for fingerprinting

`Thunk.SHA256` itself is not among the sources; per the spec the
fingerprint is SHA-256 over a deterministic canonical serialization.
We model the canonicalization step; equal canonical forms yield equal
fingerprints for any hash of their serialization. -/

/-- Insert a binding into a name-sorted binding list. -/
def insertBinding {α : Type} (b : String × α) : List (String × α) → List (String × α)
  | [] => [b]
  | c :: cs => if b.1 ≤ c.1 then b :: c :: cs else c :: insertBinding b cs

/-- Sort a binding list by name (insertion sort). -/
def sortBindings {α : Type} : List (String × α) → List (String × α)
  | [] => []
  | b :: bs => insertBinding b (sortBindings bs)

/-- Modelled from the spec: canonical form of a value -- object bindings
are recursively canonicalized and sorted by key. -/
def canonValue : Value → Value
  | .null => .null
  | .bool b => .bool b
  | .int n => .int n
  | .str s => .str s
  | .array vs => .array (canonValues vs)
  | .object bs => .object (sortBindings (canonBindings bs))
where
  canonValues : List Value → List Value
    | [] => []
    | v :: vs => canonValue v :: canonValues vs
  canonBindings : List (String × Value) → List (String × Value)
    | [] => []
    | (n, v) :: bs => (n, canonValue v) :: canonBindings bs

mutual

/-- Modelled from the spec: the canonical form hashed by `Thunk.SHA256`
(which is not among the sources).  Per spec section 3 it sorts all
map-valued fields by key, recursively canonicalizes nested thunks, and
excludes the bytes of `Secret` sources (secrets identify by name only). -/
def canonThunk : Thunk → Thunk
  | .mk image cmd args stdin env dir mounts labels insecure =>
    .mk (canonImageOpt image) (canonCmd cmd)
      (args.map canonValue) (stdin.map canonValue)
      (sortBindings (env.map (fun b => (b.1, canonValue b.2))))
      (canonDirOpt dir) (canonMounts mounts)
      (sortBindings (labels.map (fun b => (b.1, canonValue b.2))))
      insecure

/-- Canonicalization of the optional image. -/
def canonImageOpt : Option ThunkImage → Option ThunkImage
  | none => none
  | some (.ref (.mk platform repository none tag digest)) =>
    some (.ref (.mk platform repository none tag digest))
  | some (.ref (.mk platform repository (some (.mk t p)) tag digest)) =>
    some (.ref (.mk platform repository (some (.mk (canonThunk t) p)) tag digest))
  | some (.thunk t) => some (.thunk (canonThunk t))

/-- Canonicalization of the command. -/
def canonCmd : ThunkCmd → ThunkCmd
  | .cmd c => .cmd c
  | .file f => .file f
  | .thunk (.mk t p) => .thunk (.mk (canonThunk t) p)
  | .host h => .host h
  | .fs f => .fs f

/-- Canonicalization of the optional working directory. -/
def canonDirOpt : Option ThunkDir → Option ThunkDir
  | none => none
  | some (.dir d) => some (.dir d)
  | some (.thunkDir (.mk t p)) => some (.thunkDir (.mk (canonThunk t) p))
  | some (.hostDir h) => some (.hostDir h)

/-- Canonicalization of the mounts list (order is preserved). -/
def canonMounts : List ThunkMount → List ThunkMount
  | [] => []
  | .mk src tgt :: ms => .mk (canonMountSource src) tgt :: canonMounts ms

/-- Canonicalization of a mount source: a `Secret` source keeps its name
and loses its bytes. -/
def canonMountSource : ThunkMountSource → ThunkMountSource
  | .thunkPath (.mk t p) => .thunkPath (.mk (canonThunk t) p)
  | .host h => .host h
  | .fs f => .fs f
  | .cache c => .cache c
  | .secret s => .secret ⟨s.name, ""⟩

end

/-! ## Canonical reference strings -/

/-- `ThunkImageRef.Ref` (unnamed part_002, lines 71-84): errors whenever
the repository is empty (also for file-based refs), else renders
`repo@digest`, `repo:tag`, or `repo:latest`. -/
def ThunkImageRef.refString : ThunkImageRef → Except String String
  | .mk _ repository _ tag digest =>
    if repository = "" then .error "ref does not refer to a repository"
    else if digest ≠ "" then .ok (repository ++ "@" ++ digest)
    else if tag ≠ "" then .ok (repository ++ ":" ++ tag)
    else .ok (repository ++ ":latest")

/-! ## Path rendering helpers

The `Slash`/`FromSlash` renderings of `FileOrDirPath` live in the bass
path package, which is not among the sources; they are modelled from the
spec: paths are relative, forward-slash canonical, with `.` denoting the
root of the tree.  `filepath.Join` is modelled for already-clean
relative operands (the spec's invariant: subpaths are normalized and do
not escape the root via `..`). -/

/-- Model of `filepath.IsAbs` on linux: a leading slash. -/
def isAbs (p : String) : Bool :=
  match p.data with
  | '/' :: _ => true
  | _ => false

/-- Modelled from the spec: `FilesystemPath().FromSlash()`, the relative
path of a file-or-dir path. -/
def FileOrDirPath.fromSlash : FileOrDirPath → String
  | .file p => p
  | .dir p => p

/-- Modelled from the spec: `Slash()`, the slash rendering used as the
persistent cache key (directories carry a trailing slash). -/
def FileOrDirPath.slash : FileOrDirPath → String
  | .file p => "./" ++ p
  | .dir p => "./" ++ p ++ "/"

/-- Model of `filepath.Join(base, rel)` for an absolute base and a clean
relative operand. -/
def joinAbs (base rel : String) : String :=
  if rel = "." ∨ rel = "" then base else base ++ "/" ++ rel

/-- Model of `filepath.Join(base, rel)` for clean relative operands
(used for nested thunk source paths). -/
def joinRel (base rel : String) : String :=
  if base = "" then rel
  else if rel = "." ∨ rel = "" then base
  else base ++ "/" ++ rel

/-! ## The LLB build-graph translator

Shallow embedding of `(*builder).llb`, `(*builder).imageRef`,
`(*builder).unpackImageArchive`, `(*builder).initializeMount` and
`(*builder).shim` from `pkg/runtimes/buildkit.go`.  LLB states produced
by the external buildkit client library are represented by the
constructor that produced them; graph nodes that depend only on the
session or the network (metadata resolvers, the gateway solve inside the
OCI unpack) are not modelled beyond their data dependencies. -/

/-- Fixed container path of the shim binary. -/
def shimExePath : String := "/bass/shim"

/-- Fixed container work directory. -/
def workDir : String := "/bass/work"

/-- Fixed container IO directory. -/
def ioDir : String := "/bass/io"

/-- Fixed container path of the shim input file. -/
def inputFile : String := "/bass/io/in"

/-- Fixed container path of the captured-stdout file. -/
def outputFile : String := "/bass/io/out"

/-- The runtime-level inputs of the translator: the embedded shim table
(`allShims`, file name to contents), the worker platform architecture,
and the cache-disable configuration. -/
structure BuildkitCtx where
  shims : List (String × String)
  arch : String
  disableCache : Bool

/-- Translation errors surfaced by the embedded functions. -/
inductive TErr where
  | refNoRepository
  | noShimFound (arch : String)
  | unhandledMountSource
  deriving DecidableEq

/-- An LLB state, identified by its producing operation. -/
inductive StateD where
  | scratch
  | image (ref : String)
  | unpacked (tp : ThunkPath) (tag : String)
  | execOf (t : Thunk)
  | workdirOf (t : Thunk)

/-- The state mounted by an `AddMount` run option.  `baseRun` is the
re-added base workdir mount (the image's run state, with its optional
`SourcePath`). -/
inductive MountSrc where
  | tmpfs
  | cmdJson
  | shimBin
  | thunkWorkdir (t : Thunk) (sourcePath : String)
  | hostLocal (contextDir : String) (sourcePath : String)
  | cacheDir (id : String)
  | baseRun (st : StateD) (sourcePath : Option String)

/-- A run option appended to the `Run` node, mirroring the
`llb.RunOption` values the source constructs.  `hostname` and
`withCgroupParent` carry the thunk whose SHA-256 digest the source
passes. -/
inductive RunOption where
  | withCustomName (t : Thunk)
  | hostname (t : Thunk)
  | addMount (target : String) (src : MountSrc)
  | withDir (d : String)
  | argsList (argv : List String)
  | addEnv (k v : String)
  | withCgroupParent (t : Thunk)
  | securityInsecure
  | ignoreCache
  | addSecret (target : String) (id : String)

/-- Result of `(*builder).llb`: the base image state, the accumulated
run options, the workdir source sub, the insecure entitlement flag, and
the secret-table entries registered during translation. -/
structure LLBRes where
  image : StateD
  opts : List RunOption
  sourcePath : String
  ni : Bool
  secrets : List (String × String)

/-- Result of `(*builder).imageRef`. -/
structure IRes where
  image : StateD
  runState : StateD
  sourcePath : String
  ni : Bool
  secrets : List (String × String)

/-- Result of `(*builder).initializeMount` for one mount. -/
structure MRes where
  opt : RunOption
  sourcePath : String
  ni : Bool
  secrets : List (String × String)

/-- Result of the mount-processing loop in `(*builder).llb`
(lines 457-481): emitted options, threaded workdir source sub,
insecure flag, whether the workdir was remounted, and secret entries. -/
structure PMRes where
  opts : List RunOption
  sourcePath : String
  ni : Bool
  remounted : Bool
  secrets : List (String × String)

/-- `(*builder).shim` (buildkit.go 500-510): look up the embedded shim
for the worker architecture, failing when the table has no entry. -/
def shimT (ctx : BuildkitCtx) : Except TErr String :=
  match List.lookup ("exe." ++ ctx.arch) ctx.shims with
  | none => .error (.noShimFound ctx.arch)
  | some bin => .ok bin

/-- Resolution of a mount's target (buildkit.go 459-464): absolute
targets stand, relative targets are joined onto the work directory. -/
def resolveTarget (tgt : FileOrDirPath) : String :=
  let s := tgt.fromSlash
  if isAbs s then s else joinAbs workDir s

/-- The run options appended before the mounts loop
(buildkit.go 430-455): custom name, fingerprint hostname, tmpfs mounts,
the command-JSON mount, the shim mount, the workdir, the shim
entrypoint argument list; then the capture env var and the insecure
options when requested. -/
def baseRunOpts (t : Thunk) (captureStdout : Bool) (insecure : Bool) : List RunOption :=
  [.withCustomName t, .hostname t,
   .addMount "/tmp" .tmpfs, .addMount "/dev/shm" .tmpfs,
   .addMount ioDir .cmdJson, .addMount shimExePath .shimBin,
   .withDir workDir, .argsList [shimExePath, "run", inputFile]]
  ++ (if captureStdout then [.addEnv "_BASS_OUTPUT" outputFile] else [])
  ++ (if insecure then [.withCgroupParent t, .securityInsecure] else [])

mutual

/-- `(*builder).llb` (buildkit.go 404-498).  The command JSON built by
`NewCommand` is total in this model (mount descriptors are the thunk's
mounts in order, per the shim-input schema of spec section 6); the base
image is resolved, the shim looked up, the standard options appended,
the mounts processed, and the base workdir re-added unless a mount
remounted it. -/
def llbT (ctx : BuildkitCtx) : Thunk → Bool → Except TErr LLBRes
  | .mk image cmd args stdin env dir mounts labels insecure, captureStdout =>
    match imageRefT ctx image with
    | .error e => .error e
    | .ok ir =>
      match shimT ctx with
      | .error e => .error e
      | .ok _ =>
        match processMountsT ctx mounts ir.sourcePath (ir.ni || insecure) false with
        | .error e => .error e
        | .ok pm =>
          .ok ⟨ir.image,
            baseRunOpts (.mk image cmd args stdin env dir mounts labels insecure)
                captureStdout insecure
              ++ pm.opts
              ++ (if pm.remounted then []
                  else [.addMount workDir (.baseRun ir.runState
                          (if ir.sourcePath = "" then none else some ir.sourcePath))])
              ++ (if ctx.disableCache then [.ignoreCache] else []),
            pm.sourcePath, pm.ni, ir.secrets ++ pm.secrets⟩

/-- `(*builder).imageRef` (buildkit.go 512-546): scratch for an absent
image, OCI unpack for a file ref, an image node for a repository ref
(via `Ref()`), and a recursive translation for a thunk image whose
workdir mount becomes the run state. -/
def imageRefT (ctx : BuildkitCtx) : Option ThunkImage → Except TErr IRes
  | none => .ok ⟨.scratch, .scratch, "", false, []⟩
  | some (.ref (.mk platform repository (some tp) tag digest)) =>
    let _ := (platform, repository, digest)
    unpackT ctx tp tag
  | some (.ref (.mk platform repository none tag digest)) =>
    match ThunkImageRef.refString (.mk platform repository none tag digest) with
    | .error _ => .error .refNoRepository
    | .ok ref => .ok ⟨.image ref, .scratch, "", false, []⟩
  | some (.thunk t) =>
    match llbT ctx t false with
    | .error e => .error e
    | .ok r => .ok ⟨.execOf t, .workdirOf t, r.sourcePath, r.ni, r.secrets⟩

/-- `(*builder).unpackImageArchive` (buildkit.go 548-647): the shim is
looked up, the producing thunk translated, and the unpacked rootfs
returned with an empty source path; the insecure flag of the producing
thunk propagates. -/
def unpackT (ctx : BuildkitCtx) : ThunkPath → String → Except TErr IRes
  | .mk t p, tag =>
    match shimT ctx with
    | .error e => .error e
    | .ok _ =>
      match llbT ctx t false with
      | .error e => .error e
      | .ok r => .ok ⟨.unpacked (.mk t p) tag, .scratch, "", r.ni, r.secrets⟩

/-- `(*builder).initializeMount` (buildkit.go 649-781).  The embedded-FS
arm is commented out in this revision, so an FS source falls through to
the `default` error.  The secret arm registers the bytes in the secret
table and emits a mount that references the secret by name only. -/
def initializeMountT (ctx : BuildkitCtx) : ThunkMountSource → String → Except TErr MRes
  | .thunkPath (.mk t p), targetPath =>
    match llbT ctx t false with
    | .error e => .error e
    | .ok r =>
      let sourcePath := joinRel r.sourcePath (FileOrDirPath.fromSlash p)
      .ok ⟨.addMount targetPath (.thunkWorkdir t sourcePath), sourcePath, r.ni, r.secrets⟩
  | .host h, targetPath =>
    let sourcePath := FileOrDirPath.fromSlash h.path
    .ok ⟨.addMount targetPath (.hostLocal h.contextDir sourcePath), sourcePath, false, []⟩
  | .fs _, _ => .error .unhandledMountSource
  | .cache c, targetPath =>
    .ok ⟨.addMount targetPath (.cacheDir (FileOrDirPath.slash c)), "", false, []⟩
  | .secret s, targetPath =>
    .ok ⟨.addSecret targetPath s.name, "", false, [(s.name, s.bytes)]⟩

/-- The mounts loop of `(*builder).llb` (buildkit.go 457-481): each
mount's target is resolved, the mount translated; a mount targeting the
work directory marks it remounted and overwrites the threaded source
path; any mount's insecure flag propagates. -/
def processMountsT (ctx : BuildkitCtx) :
    List ThunkMount → String → Bool → Bool → Except TErr PMRes
  | [], sp, ni, rm => .ok ⟨[], sp, ni, rm, []⟩
  | .mk src tgt :: rest, sp, ni, rm =>
    let targetPath := resolveTarget tgt
    match initializeMountT ctx src targetPath with
    | .error e => .error e
    | .ok m =>
      match processMountsT ctx rest
          (if targetPath = workDir then m.sourcePath else sp)
          (if m.ni then true else ni)
          (if targetPath = workDir then true else rm) with
      | .error e => .error e
      | .ok pm => .ok ⟨m.opt :: pm.opts, pm.sourcePath, pm.ni, pm.remounted, m.secrets ++ pm.secrets⟩

end

/-! ## Accessors -/

/-- The image of a thunk. -/
def Thunk.image : Thunk → Option ThunkImage
  | .mk i _ _ _ _ _ _ _ _ => i

/-- The mounts of a thunk. -/
def Thunk.mounts : Thunk → List ThunkMount
  | .mk _ _ _ _ _ _ m _ _ => m

/-- The insecure flag of a thunk. -/
def Thunk.insecure : Thunk → Bool
  | .mk _ _ _ _ _ _ _ _ b => b

/-- The producing thunk of a thunk path. -/
def ThunkPath.thunkOf : ThunkPath → Thunk
  | .mk t _ => t

/-- The source of a mount. -/
def ThunkMount.source : ThunkMount → ThunkMountSource
  | .mk s _ => s

/-- The target of a mount. -/
def ThunkMount.target : ThunkMount → FileOrDirPath
  | .mk _ t => t

/-- Whether a mount's resolved target is the work directory. -/
def targetsWorkdir (m : ThunkMount) : Bool :=
  resolveTarget m.target = workDir

/-- The mount target of an emitted run option, when it is a mount. -/
def optTarget : RunOption → Option String
  | .addMount tgt _ => some tgt
  | .addSecret tgt _ => some tgt
  | _ => none

/-- Whether a run option is one of the two mount kinds a processed
thunk mount can produce. -/
def isMountOpt : RunOption → Bool
  | .addMount _ _ => true
  | .addSecret _ _ => true
  | _ => false

/-- Whether a run option is the entrypoint argument list. -/
def isArgsOpt : RunOption → Bool
  | .argsList _ => true
  | _ => false

/-- Whether a run option is the re-added base workdir mount. -/
def isBaseWorkdirRemount : RunOption → Bool
  | .addMount tgt (.baseRun _ _) => tgt = workDir
  | _ => false

/-! ## Spec-side insecure predicates

Two predicates written from natural-language statements, for refinement
comparison with the translator's flag.  `specNeedsInsecure` follows the
spec sentence "`needsInsecure(T)` is true iff `T.insecure` or some
transitively-referenced thunk (image or mount) requires insecure": a
thunk is referenced through a thunk base image, through the thunk
producing a file-based image ref, or through a thunk-output mount
source.  `claimNeedsInsecure` follows the claim's narrower wording,
which admits only a Parent/thunk base image or a thunk-output mount
source. -/

mutual

/-- Spec wording: own flag, or a transitively referenced thunk through
the image (thunk image or file-based ref) or a thunk-output mount. -/
def specNeedsInsecure : Thunk → Bool
  | .mk image _ _ _ _ _ mounts _ insecure =>
    insecure || specImageNI image || specMountsNI mounts

/-- Insecure flag reachable through the image. -/
def specImageNI : Option ThunkImage → Bool
  | none => false
  | some (.ref (.mk _ _ none _ _)) => false
  | some (.ref (.mk _ _ (some (.mk t _)) _ _)) => specNeedsInsecure t
  | some (.thunk t) => specNeedsInsecure t

/-- Insecure flag reachable through some mount. -/
def specMountsNI : List ThunkMount → Bool
  | [] => false
  | .mk src _ :: rest => specSourceNI src || specMountsNI rest

/-- Insecure flag reachable through one mount source: only thunk-output
sources reference thunks. -/
def specSourceNI : ThunkMountSource → Bool
  | .thunkPath (.mk t _) => specNeedsInsecure t
  | _ => false

end

mutual

/-- Claim C3's wording: own flag, or a thunk reached through a
Parent/thunk base image or a thunk-output mount source (file-based
image refs not included). -/
def claimNeedsInsecure : Thunk → Bool
  | .mk image _ _ _ _ _ mounts _ insecure =>
    insecure || claimImageNI image || claimMountsNI mounts

/-- Claim-side image clause: only a thunk base image counts. -/
def claimImageNI : Option ThunkImage → Bool
  | some (.thunk t) => claimNeedsInsecure t
  | _ => false

/-- Claim-side mounts clause. -/
def claimMountsNI : List ThunkMount → Bool
  | [] => false
  | .mk src _ :: rest => claimSourceNI src || claimMountsNI rest

/-- Claim-side mount-source clause. -/
def claimSourceNI : ThunkMountSource → Bool
  | .thunkPath (.mk t _) => claimNeedsInsecure t
  | _ => false

end

/-! ## Solver driver: Run / Read read-back

`Buildkit.Run` (buildkit.go 194-232) and `Buildkit.Read` (unnamed
part_000, lines 205-243) share the read-back logic: after a successful
solve with a local export, `os.Open` the exported `out` file; when the
open succeeds, copy it to the caller's writer; when it fails (file
absent or unopenable) the error is dropped and nil returned. -/

/-- The caller's writer: the discard sink or a buffering writer. -/
inductive Writer where
  | discard
  | buffer (data : String)
  deriving DecidableEq

/-- `w != io.Discard` (buildkit.go 210): stdout capture is requested
exactly for non-discard writers. -/
def captureRequested : Writer → Bool
  | .discard => false
  | .buffer _ => true

/-- Writing to the writer (`io.Copy`); the discard sink drops data. -/
def writeTo : Writer → String → Writer
  | .discard, _ => .discard
  | .buffer d, s => .buffer (d ++ s)

/-- The read-back step (buildkit.go 221-231): `exported` is the content
of the exported `out` file when it can be opened, `none` when the file
is absent or opening fails. -/
def readBack (exported : Option String) (w : Writer) : Except String Writer :=
  match exported with
  | none => .ok w
  | some content => .ok (writeTo w content)

/-! ## Solver driver: Prune

`Buildkit.Prune` (buildkit.go 281-326).  The printer goroutine drains
the usage channel into a buffered tab writer; the channel is closed and
the goroutine joined before the error check; only the success path
writes the total line and flushes. -/

/-- One usage record streamed by the solver's prune call. -/
structure UsageInfo where
  id : String
  size : Int

/-- The line formatted for a usage record (timestamps and the size and
description renderings are abbreviated to the record id). -/
def pruneLine (du : UsageInfo) : String := "pruned " ++ du.id

/-- A buffered tab writer: lines buffered, and lines actually emitted
to the underlying stderr stream (only a flush moves lines over). -/
structure TabWriter where
  buffered : List String
  flushedOut : List String
  deriving DecidableEq

/-- `fmt.Fprintln(tw, line)`: buffer a line. -/
def twWrite (tw : TabWriter) (line : String) : TabWriter :=
  ⟨tw.buffered ++ [line], tw.flushedOut⟩

/-- `tw.Flush()`: emit everything buffered. -/
def twFlush (tw : TabWriter) : TabWriter :=
  ⟨[], tw.flushedOut ++ tw.buffered⟩

/-- The printer loop: buffer one line per record, in stream order,
accumulating the size total. -/
def printLoop (tw : TabWriter) : List UsageInfo → TabWriter × Int
  | [] => (tw, 0)
  | du :: rest =>
    let (tw', t) := printLoop (twWrite tw (pruneLine du)) rest
    (tw', du.size + t)

/-- `Buildkit.Prune`: drain all records, then either return the
solver's error -- before the total line and before the flush -- or
write the total and flush. -/
def pruneT (records : List UsageInfo) (pruneErr : Option String) :
    TabWriter × Except String Unit :=
  let (tw, total) := printLoop ⟨[], []⟩ records
  match pruneErr with
  | some e => (tw, .error e)
  | none => (twFlush (twWrite tw ("total: " ++ toString total)), .ok ())

/-! ## Platform negotiation

`NewBuildkit` (buildkit.go 112-153): list the workers, require each
worker's (first) platform to match the previously seen one, keep the
common platform.  `platforms.Only(p).Match(q)` on normalized platforms
is modelled as platform equality. -/

/-- The worker-agreement loop (buildkit.go 135-144), one entry per
worker (its first platform). -/
def pickPlatform : List Platform → Except String Platform :=
  go ⟨"", ""⟩ none
where
  go (platform : Platform) (checkSame : Option Platform) :
      List Platform → Except String Platform
    | [] => .ok platform
    | w :: rest =>
      match checkSame with
      | some prev =>
        if w ≠ prev then .error "workers have different platforms"
        else go w (some w) rest
      | none => go w (some w) rest

/-! ## Runtime registry

`RegisterRuntime` / `Init` (unnamed part_001): a name-to-constructor
table; `Init` looks the configured name up and either fails with an
unknown-runtime error or invokes the constructor on the pool, the
addresses and the nested config. -/

/-- Registry-level errors: the unknown-runtime error, or whatever a
constructor returns. -/
inductive RegistryErr where
  | unknownRuntime (name : String)
  | constructorErr (msg : String)
  deriving DecidableEq

/-- `Init` (unnamed part_001, lines 19-28), generic over the pool,
address, config and runtime types. -/
def initRuntime {π α γ ρ : Type}
    (registry : List (String × (π → α → γ → Except RegistryErr ρ)))
    (name : String) (pool : π) (addrs : α) (cfg : γ) : Except RegistryErr ρ :=
  match List.lookup name registry with
  | none => .error (.unknownRuntime name)
  | some ctor => ctor pool addrs cfg

/-! ## Concrete fixtures used by closed theorems below -/

/-- A concrete runtime context: one shim for amd64, cache enabled. -/
def ctxEx : BuildkitCtx := ⟨[("exe.amd64", "shimbytes")], "amd64", false⟩

/-- A minimal thunk. -/
def thunkNop : Thunk := .mk none (.cmd "true") [] [] [] none [] [] false

/-- A minimal thunk with the insecure flag set. -/
def thunkInsec : Thunk := .mk none (.cmd "x") [] [] [] none [] [] true

/-- A thunk whose base image is a file-based ref (OCI archive)
produced by an insecure thunk. -/
def thunkArchiveImage : Thunk :=
  .mk (some (.ref (.mk ⟨"linux", "amd64"⟩ "" (some (.mk thunkInsec (.file "image.tar"))) "v2" "")))
    (.cmd "ls") [] [] [] none [] [] false

/-- A thunk with two mounts both targeting the work directory, with
source subs "a" and "b". -/
def thunkTwoWorkdirMounts : Thunk :=
  .mk none (.cmd "go") [] [] [] none
    [.mk (.thunkPath (.mk thunkNop (.dir "a"))) (.dir "."),
     .mk (.thunkPath (.mk thunkNop (.dir "b"))) (.dir ".")] [] false

/-- The same thunk with only the first workdir mount. -/
def thunkOneWorkdirMount : Thunk :=
  .mk none (.cmd "go") [] [] [] none
    [.mk (.thunkPath (.mk thunkNop (.dir "a"))) (.dir ".")] [] false

/-- Placeholder translation result. -/
def defaultLLBRes : LLBRes := ⟨.scratch, [], "", false, []⟩

/-- The computed translation result of `thunkArchiveImage`. -/
def c3res : LLBRes :=
  match llbT ctxEx thunkArchiveImage false with
  | .ok r => r
  | .error _ => defaultLLBRes

/-- The computed translation result of `thunkTwoWorkdirMounts`. -/
def c4res : LLBRes :=
  match llbT ctxEx thunkTwoWorkdirMounts false with
  | .ok r => r
  | .error _ => defaultLLBRes

/-- The computed translation result of `thunkNop` with capture. -/
def c5res : LLBRes :=
  match llbT ctxEx thunkNop true with
  | .ok r => r
  | .error _ => defaultLLBRes

/-! ## Refinement: the translator's insecure flag

Helper lemmas relating the `needsInsecure` flag returned by each
translator function, on success, to the spec-side predicate. -/

mutual

theorem llbT_ni (ctx : BuildkitCtx) (t : Thunk) (cap : Bool) (r : LLBRes)
    (h : llbT ctx t cap = .ok r) : r.ni = specNeedsInsecure t := by
  match t with
  | .mk image cmd args stdin env dir mounts labels insecure =>
    unfold llbT at h
    cases hir : imageRefT ctx image with
    | error e => simp only [hir] at h; exact Except.noConfusion h
    | ok ir =>
      simp only [hir] at h
      cases hs : shimT ctx with
      | error e => simp only [hs] at h; exact Except.noConfusion h
      | ok sbin =>
        simp only [hs] at h
        cases hpm : processMountsT ctx mounts ir.sourcePath (ir.ni || insecure) false with
        | error e => simp only [hpm] at h; exact Except.noConfusion h
        | ok pm =>
          simp only [hpm, Except.ok.injEq] at h
          subst h
          have h1 := processMountsT_ni ctx mounts ir.sourcePath (ir.ni || insecure) false pm hpm
          have h2 := imageRefT_ni ctx image ir hir
          show pm.ni = _
          rw [h1, h2]
          unfold specNeedsInsecure
          cases insecure <;> cases specImageNI image <;> cases specMountsNI mounts <;> rfl

theorem imageRefT_ni (ctx : BuildkitCtx) (oi : Option ThunkImage) (ir : IRes)
    (h : imageRefT ctx oi = .ok ir) : ir.ni = specImageNI oi := by
  match oi with
  | none =>
    unfold imageRefT at h
    simp only [Except.ok.injEq] at h
    subst h
    rfl
  | some (.ref (.mk platform repository (some (.mk t p)) tag digest)) =>
    unfold imageRefT at h
    have := unpackT_ni ctx t p tag ir h
    rw [this]
    rfl
  | some (.ref (.mk platform repository none tag digest)) =>
    unfold imageRefT at h
    cases hr : ThunkImageRef.refString (.mk platform repository none tag digest) with
    | error e => simp only [hr] at h; exact Except.noConfusion h
    | ok s =>
      simp only [hr, Except.ok.injEq] at h
      subst h
      rfl
  | some (.thunk t) =>
    unfold imageRefT at h
    cases hl : llbT ctx t false with
    | error e => simp only [hl] at h; exact Except.noConfusion h
    | ok r =>
      simp only [hl, Except.ok.injEq] at h
      subst h
      have := llbT_ni ctx t false r hl
      show r.ni = _
      rw [this]
      rfl

theorem unpackT_ni (ctx : BuildkitCtx) (t : Thunk) (p : FileOrDirPath) (tag : String) (ir : IRes)
    (h : unpackT ctx (.mk t p) tag = .ok ir) : ir.ni = specNeedsInsecure t := by
  unfold unpackT at h
  cases hs : shimT ctx with
  | error e => simp only [hs] at h; exact Except.noConfusion h
  | ok sbin =>
    simp only [hs] at h
    cases hl : llbT ctx t false with
    | error e => simp only [hl] at h; exact Except.noConfusion h
    | ok r =>
      simp only [hl, Except.ok.injEq] at h
      subst h
      exact llbT_ni ctx t false r hl

theorem initializeMountT_ni (ctx : BuildkitCtx) (src : ThunkMountSource) (tgt : String) (m : MRes)
    (h : initializeMountT ctx src tgt = .ok m) : m.ni = specSourceNI src := by
  match src with
  | .thunkPath (.mk t p) =>
    unfold initializeMountT at h
    cases hl : llbT ctx t false with
    | error e => simp only [hl] at h; exact Except.noConfusion h
    | ok r =>
      simp only [hl, Except.ok.injEq] at h
      subst h
      have := llbT_ni ctx t false r hl
      show r.ni = _
      rw [this]
      rfl
  | .host hh =>
    unfold initializeMountT at h
    simp only [Except.ok.injEq] at h
    subst h
    rfl
  | .fs f =>
    unfold initializeMountT at h
    simp at h
  | .cache c =>
    unfold initializeMountT at h
    simp only [Except.ok.injEq] at h
    subst h
    rfl
  | .secret s =>
    unfold initializeMountT at h
    simp only [Except.ok.injEq] at h
    subst h
    rfl

theorem processMountsT_ni (ctx : BuildkitCtx) (ms : List ThunkMount) (sp : String)
    (ni rm : Bool) (pm : PMRes)
    (h : processMountsT ctx ms sp ni rm = .ok pm) : pm.ni = (ni || specMountsNI ms) := by
  match ms with
  | [] =>
    unfold processMountsT at h
    simp only [Except.ok.injEq] at h
    subst h
    unfold specMountsNI
    cases ni <;> rfl
  | .mk src tgt :: rest =>
    unfold processMountsT at h
    simp only [] at h
    cases hm : initializeMountT ctx src (resolveTarget tgt) with
    | error e => simp only [hm] at h; exact Except.noConfusion h
    | ok m =>
      simp only [hm] at h
      cases hp : processMountsT ctx rest
          (if resolveTarget tgt = workDir then m.sourcePath else sp)
          (if m.ni = true then true else ni)
          (if resolveTarget tgt = workDir then true else rm) with
      | error e => simp only [hp] at h; exact Except.noConfusion h
      | ok pm' =>
        simp only [hp, Except.ok.injEq] at h
        subst h
        have h1 := processMountsT_ni ctx rest _ _ _ pm' hp
        have h2 := initializeMountT_ni ctx src (resolveTarget tgt) m hm
        show pm'.ni = _
        rw [h1]
        simp only [specMountsNI]
        rw [← h2]
        cases m.ni <;> cases ni <;> cases specMountsNI rest <;> rfl
end

/-! ## Further helper lemmas -/

theorem initializeMountT_opt (ctx : BuildkitCtx) (src : ThunkMountSource) (tgt : String)
    (m : MRes) (h : initializeMountT ctx src tgt = .ok m) :
    optTarget m.opt = some tgt ∧ isMountOpt m.opt = true ∧ isBaseWorkdirRemount m.opt = false := by
  match src with
  | .thunkPath (.mk t p) =>
    unfold initializeMountT at h
    cases hl : llbT ctx t false with
    | error e => simp only [hl] at h; exact Except.noConfusion h
    | ok r =>
      simp only [hl, Except.ok.injEq] at h
      subst h
      exact ⟨rfl, rfl, rfl⟩
  | .host hh =>
    unfold initializeMountT at h
    simp only [Except.ok.injEq] at h
    subst h
    exact ⟨rfl, rfl, rfl⟩
  | .fs f =>
    unfold initializeMountT at h
    exact Except.noConfusion h
  | .cache c =>
    unfold initializeMountT at h
    simp only [Except.ok.injEq] at h
    subst h
    exact ⟨rfl, rfl, rfl⟩
  | .secret s =>
    unfold initializeMountT at h
    simp only [Except.ok.injEq] at h
    subst h
    exact ⟨rfl, rfl, rfl⟩

theorem processMountsT_decomp (ctx : BuildkitCtx) (src : ThunkMountSource)
    (tgt : FileOrDirPath) (rest : List ThunkMount) (sp : String) (ni rm : Bool) (pm : PMRes)
    (h : processMountsT ctx (.mk src tgt :: rest) sp ni rm = .ok pm) :
    ∃ m pm', initializeMountT ctx src (resolveTarget tgt) = .ok m ∧
      processMountsT ctx rest
        (if resolveTarget tgt = workDir then m.sourcePath else sp)
        (if m.ni then true else ni)
        (if resolveTarget tgt = workDir then true else rm) = .ok pm' ∧
      pm = ⟨m.opt :: pm'.opts, pm'.sourcePath, pm'.ni, pm'.remounted, m.secrets ++ pm'.secrets⟩ := by
  unfold processMountsT at h
  simp only [] at h
  cases hm : initializeMountT ctx src (resolveTarget tgt) with
  | error e => simp only [hm] at h; exact Except.noConfusion h
  | ok m =>
    simp only [hm] at h
    cases hp : processMountsT ctx rest
        (if resolveTarget tgt = workDir then m.sourcePath else sp)
        (if m.ni = true then true else ni)
        (if resolveTarget tgt = workDir then true else rm) with
    | error e => simp only [hp] at h; exact Except.noConfusion h
    | ok pm' =>
      simp only [hp, Except.ok.injEq] at h
      exact ⟨m, pm', rfl, hp, h.symm⟩

theorem processMountsT_opts (ctx : BuildkitCtx) (ms : List ThunkMount) (sp : String)
    (ni rm : Bool) (pm : PMRes) (h : processMountsT ctx ms sp ni rm = .ok pm) :
    pm.opts.map optTarget = ms.map (fun m => some (resolveTarget m.target)) ∧
    (∀ o ∈ pm.opts, isMountOpt o = true ∧ isBaseWorkdirRemount o = false) := by
  induction ms generalizing sp ni rm pm with
  | nil =>
    unfold processMountsT at h
    simp only [Except.ok.injEq] at h
    subst h
    exact ⟨rfl, by intro o ho; exact absurd ho (by simp)⟩
  | cons head rest ih =>
    match head with
    | .mk src tgt =>
      obtain ⟨m, pm', hm, hp, hpm⟩ := processMountsT_decomp ctx src tgt rest sp ni rm pm h
      subst hpm
      obtain ⟨ht, hmo, hmb⟩ := initializeMountT_opt ctx src (resolveTarget tgt) m hm
      obtain ⟨ih1, ih2⟩ := ih _ _ _ _ hp
      constructor
      · simp only [List.map_cons, ih1, ht, ThunkMount.target]
      · intro o ho
        rcases List.mem_cons.mp ho with h1 | h2
        · subst h1; exact ⟨hmo, hmb⟩
        · exact ih2 o h2

theorem processMountsT_remounted (ctx : BuildkitCtx) (ms : List ThunkMount) (sp : String)
    (ni rm : Bool) (pm : PMRes) (h : processMountsT ctx ms sp ni rm = .ok pm) :
    pm.remounted = (rm || ms.any targetsWorkdir) := by
  induction ms generalizing sp ni rm pm with
  | nil =>
    unfold processMountsT at h
    simp only [Except.ok.injEq] at h
    subst h
    cases rm <;> rfl
  | cons head rest ih =>
    match head with
    | .mk src tgt =>
      obtain ⟨m, pm', hm, hp, hpm⟩ := processMountsT_decomp ctx src tgt rest sp ni rm pm h
      subst hpm
      have := ih _ _ _ _ hp
      show pm'.remounted = _
      rw [this]
      simp only [List.any_cons, targetsWorkdir, ThunkMount.target]
      by_cases hw : resolveTarget tgt = workDir
      · simp [hw]
      · simp [hw]

theorem processMountsT_sourcePath (ctx : BuildkitCtx) (ms : List ThunkMount) (sp : String)
    (ni rm : Bool) (pm : PMRes) (h : processMountsT ctx ms sp ni rm = .ok pm) :
    (match (ms.filter targetsWorkdir).getLast? with
     | none => pm.sourcePath = sp
     | some mLast => ∃ m, initializeMountT ctx mLast.source workDir = .ok m ∧
         pm.sourcePath = m.sourcePath) := by
  induction ms generalizing sp ni rm pm with
  | nil =>
    unfold processMountsT at h
    simp only [Except.ok.injEq] at h
    subst h
    simp
  | cons head rest ih =>
    match head with
    | .mk src tgt =>
      obtain ⟨m, pm', hm, hp, hpm⟩ := processMountsT_decomp ctx src tgt rest sp ni rm pm h
      subst hpm
      have ihr := ih _ _ _ _ hp
      by_cases hw : targetsWorkdir (.mk src tgt)
      · have hw' : resolveTarget tgt = workDir := by
          simpa [targetsWorkdir, ThunkMount.target] using hw
        rw [List.filter_cons_of_pos hw]
        cases hlast : (rest.filter targetsWorkdir).getLast? with
        | none =>
          have hnil : rest.filter targetsWorkdir = [] := by
            cases hfe : rest.filter targetsWorkdir with
            | nil => rfl
            | cons a as => rw [hfe] at hlast; simp [List.getLast?] at hlast
          rw [hnil]
          simp only [List.getLast?_singleton]
          refine ⟨m, ?_, ?_⟩
          · rw [← hw']; exact hm
          · rw [hnil] at ihr
            simp only [List.getLast?_nil] at ihr
            rw [ihr]
            simp [hw']
        | some mLast =>
          have : ((ThunkMount.mk src tgt :: rest.filter targetsWorkdir).getLast?) = some mLast := by
            cases hfe : rest.filter targetsWorkdir with
            | nil => rw [hfe] at hlast; simp [List.getLast?] at hlast
            | cons a as =>
              rw [hfe] at hlast
              rw [List.getLast?_cons_cons]
              exact hlast
          rw [this]
          rw [hlast] at ihr
          exact ihr
      · have hw' : ¬ (resolveTarget tgt = workDir) := by
          simpa [targetsWorkdir, ThunkMount.target] using hw
        rw [List.filter_cons_of_neg hw]
        simp only [hw', if_false] at hp ihr ⊢
        exact ihr

theorem llbT_decomp (ctx : BuildkitCtx) (t : Thunk) (cap : Bool) (r : LLBRes)
    (h : llbT ctx t cap = .ok r) :
    ∃ ir pm, imageRefT ctx t.image = .ok ir ∧
      processMountsT ctx t.mounts ir.sourcePath (ir.ni || t.insecure) false = .ok pm ∧
      r = ⟨ir.image,
        baseRunOpts t cap t.insecure
          ++ pm.opts
          ++ (if pm.remounted then []
              else [.addMount workDir (.baseRun ir.runState
                      (if ir.sourcePath = "" then none else some ir.sourcePath))])
          ++ (if ctx.disableCache then [.ignoreCache] else []),
        pm.sourcePath, pm.ni, ir.secrets ++ pm.secrets⟩ := by
  match t with
  | .mk image cmd args stdin env dir mounts labels insecure =>
    unfold llbT at h
    cases hir : imageRefT ctx image with
    | error e => simp only [hir] at h; exact Except.noConfusion h
    | ok ir =>
      simp only [hir] at h
      cases hs : shimT ctx with
      | error e => simp only [hs] at h; exact Except.noConfusion h
      | ok sbin =>
        simp only [hs] at h
        cases hpm : processMountsT ctx mounts ir.sourcePath (ir.ni || insecure) false with
        | error e => simp only [hpm] at h; exact Except.noConfusion h
        | ok pm =>
          simp only [hpm, Except.ok.injEq] at h
          exact ⟨ir, pm, hir, hpm, h.symm⟩

theorem baseRunOpts_filter_args (t : Thunk) (cap insecure : Bool) :
    (baseRunOpts t cap insecure).filter isArgsOpt = [.argsList [shimExePath, "run", inputFile]] := by
  cases cap <;> cases insecure <;> rfl

theorem baseRunOpts_countP_remount (t : Thunk) (cap insecure : Bool) :
    (baseRunOpts t cap insecure).countP isBaseWorkdirRemount = 0 := by
  cases cap <;> cases insecure <;> rfl

theorem baseRunOpts_mem_env (t : Thunk) (cap insecure : Bool) :
    ((RunOption.addEnv "_BASS_OUTPUT" outputFile) ∈ baseRunOpts t cap insecure) ↔ cap = true := by
  cases cap <;> cases insecure <;> simp [baseRunOpts]

theorem llbT_args_env (ctx : BuildkitCtx) (t : Thunk) (cap : Bool) (r : LLBRes)
    (h : llbT ctx t cap = .ok r) :
    r.opts.filter isArgsOpt = [.argsList [shimExePath, "run", inputFile]] ∧
    ((RunOption.addEnv "_BASS_OUTPUT" outputFile) ∈ r.opts ↔ cap = true) := by
  obtain ⟨ir, pm, hir, hpm, hr⟩ := llbT_decomp ctx t cap r h
  subst hr
  obtain ⟨-, hall⟩ := processMountsT_opts ctx t.mounts ir.sourcePath (ir.ni || t.insecure) false pm hpm
  have hpf : pm.opts.filter isArgsOpt = [] := by
    rw [List.filter_eq_nil_iff]
    intro a ha
    have := (hall a ha).1
    cases a <;> simp_all [isMountOpt, isArgsOpt]
  constructor
  · simp only [List.filter_append, baseRunOpts_filter_args, hpf]
    have h1 : (if pm.remounted then ([] : List RunOption)
        else [.addMount workDir (.baseRun ir.runState
                (if ir.sourcePath = "" then none else some ir.sourcePath))]).filter isArgsOpt = [] := by
      cases pm.remounted <;> rfl
    have h2 : (if ctx.disableCache then [RunOption.ignoreCache] else []).filter isArgsOpt = [] := by
      cases ctx.disableCache <;> rfl
    rw [h1, h2]
    simp
  · have h2 : (RunOption.addEnv "_BASS_OUTPUT" outputFile) ∉ pm.opts := by
      intro hm
      have := (hall _ hm).1
      simp [isMountOpt] at this
    have h3 : (RunOption.addEnv "_BASS_OUTPUT" outputFile) ∉
        (if pm.remounted then ([] : List RunOption)
         else [.addMount workDir (.baseRun ir.runState
                 (if ir.sourcePath = "" then none else some ir.sourcePath))]) := by
      cases pm.remounted <;> simp
    have h4 : (RunOption.addEnv "_BASS_OUTPUT" outputFile) ∉
        (if ctx.disableCache then [RunOption.ignoreCache] else []) := by
      cases ctx.disableCache <;> simp
    simp only [List.mem_append]
    rw [baseRunOpts_mem_env]
    simp [h2, h3, h4]

theorem llbT_remount_count (ctx : BuildkitCtx) (t : Thunk) (cap : Bool) (r : LLBRes)
    (h : llbT ctx t cap = .ok r) :
    r.opts.countP isBaseWorkdirRemount = (if t.mounts.any targetsWorkdir then 0 else 1) := by
  obtain ⟨ir, pm, hir, hpm, hr⟩ := llbT_decomp ctx t cap r h
  subst hr
  obtain ⟨-, hall⟩ := processMountsT_opts ctx t.mounts ir.sourcePath (ir.ni || t.insecure) false pm hpm
  have hrm := processMountsT_remounted ctx t.mounts ir.sourcePath (ir.ni || t.insecure) false pm hpm
  rw [Bool.false_or] at hrm
  have hp0 : pm.opts.countP isBaseWorkdirRemount = 0 := by
    rw [List.countP_eq_zero]
    intro a ha
    simp [(hall a ha).2]
  simp only [List.countP_append, baseRunOpts_countP_remount, hp0, hrm]
  cases t.mounts.any targetsWorkdir <;> cases hdc : ctx.disableCache <;>
    simp [isBaseWorkdirRemount, workDir]

theorem canonMounts_append (xs ys : List ThunkMount) :
    canonMounts (xs ++ ys) = canonMounts xs ++ canonMounts ys := by
  induction xs with
  | nil => rfl
  | cons m ms ih =>
    match m with
    | .mk src tgt => simp only [List.cons_append, canonMounts, List.append_eq, ih]

theorem pickGo_ok (w : Platform) (ws : List Platform) (p : Platform)
    (h : pickPlatform.go w (some w) ws = .ok p) : w = p ∧ ∀ a ∈ ws, a = p := by
  induction ws generalizing w with
  | nil =>
    unfold pickPlatform.go at h
    injection h with h'
    exact ⟨h', by simp⟩
  | cons v rest ih =>
    unfold pickPlatform.go at h
    by_cases hv : v = w
    · subst hv
      simp only [ne_eq, not_true_eq_false, if_neg, reduceIte] at h
      obtain ⟨h1, h2⟩ := ih v h
      refine ⟨h1, ?_⟩
      intro a ha
      rcases List.mem_cons.mp ha with h3 | h3
      · subst h3; exact h1
      · exact h2 a h3
    · dsimp only at h
      rw [if_pos hv] at h
      exact Except.noConfusion h

theorem pickGo_all (w : Platform) (ws : List Platform) (hall : ∀ a ∈ ws, a = w) :
    pickPlatform.go w (some w) ws = .ok w := by
  induction ws with
  | nil => rfl
  | cons v rest ih =>
    have hv : v = w := hall v (by simp)
    subst hv
    unfold pickPlatform.go
    simp only [ne_eq, not_true_eq_false, if_neg, reduceIte]
    exact ih (fun a ha => hall a (by simp [ha]))

theorem printLoop_fst (rs : List UsageInfo) (tw : TabWriter) :
    (printLoop tw rs).1 = ⟨tw.buffered ++ rs.map pruneLine, tw.flushedOut⟩ := by
  induction rs generalizing tw with
  | nil => simp [printLoop]
  | cons du rest ih =>
    simp only [printLoop, ih, twWrite, List.map_cons, List.append_assoc, List.singleton_append]

theorem printLoop_snd (rs : List UsageInfo) (tw : TabWriter) :
    (printLoop tw rs).2 = (rs.map UsageInfo.size).sum := by
  induction rs generalizing tw with
  | nil => simp [printLoop]
  | cons du rest ih =>
    simp only [printLoop, ih, List.map_cons, List.sum_cons]

/-! ## Claim theorems -/

/-- Claim C1 (code bug): wire round-trip fails.  `Thunk.MarshalProto`
appends the stdin values to the wire args field and writes no stdin
field, so two distinct thunks -- one with `args = ["hi"]`, one with
`stdin = ["hi"]` -- share one encoding; no decoder can map it back to
both, so `decode(encode(T)) = T` cannot hold for every thunk. -/
theorem C1_stdin_args_collision :
    thunkMarshalProto (.mk none (.cmd "echo") [.str "hi"] [] [] none [] [] false) =
      thunkMarshalProto (.mk none (.cmd "echo") [] [.str "hi"] [] none [] [] false) ∧
    (Thunk.mk none (.cmd "echo") [.str "hi"] [] [] none [] [] false) ≠
      (Thunk.mk none (.cmd "echo") [] [.str "hi"] [] none [] [] false) := by
  constructor
  · rfl
  · intro h
    injection h with h1 h2 h3 h4 h5 h6 h7 h8 h9
    exact absurd h3 (by simp)

/-- Claim C2: replacing a secret mount source's bytes while keeping its
name leaves the canonical fingerprint serialization unchanged (so the
SHA-256 fingerprint is unchanged), and `initializeMount` puts the bytes
only in the per-solve secret table: the emitted graph option references
the secret by name and target alone. -/
theorem C2_secret_independence :
    (∀ image cmd args stdin env dir pre post labels ins name bytes bytes' tgt,
      canonThunk (.mk image cmd args stdin env dir
          (pre ++ [.mk (.secret ⟨name, bytes⟩) tgt] ++ post) labels ins) =
        canonThunk (.mk image cmd args stdin env dir
          (pre ++ [.mk (.secret ⟨name, bytes'⟩) tgt] ++ post) labels ins)) ∧
    (∀ ctx name bytes tgtPath,
      initializeMountT ctx (.secret ⟨name, bytes⟩) tgtPath =
        .ok ⟨.addSecret tgtPath name, "", false, [(name, bytes)]⟩) := by
  constructor
  · intro image cmd args stdin env dir pre post labels ins name bytes bytes' tgt
    simp only [canonThunk, canonMounts_append, canonMounts, canonMountSource]
  · intro ctx name bytes tgtPath
    rfl

/-- Claim C3 counterexample: a thunk whose image is a file-based ref
(OCI archive) produced by an insecure thunk translates with
`needsInsecure = true`, while the claim's predicate -- which admits only
Parent/thunk base images and thunk-output mounts -- is false. -/
theorem C3_file_image_counterexample :
    (llbT ctxEx thunkArchiveImage false).map LLBRes.ni = .ok true ∧
    claimNeedsInsecure thunkArchiveImage = false := ⟨rfl, rfl⟩

/-- Claim C3 (amended): on successful translation the returned
`needsInsecure` flag is true iff the thunk's own insecure flag is set or
some transitively referenced thunk -- reached through a thunk base
image, through the thunk producing a file-based image ref, or through a
thunk-output mount source -- has its insecure flag set. -/
theorem C3_needs_insecure_amended :
    ∀ (ctx : BuildkitCtx) (t : Thunk) (cap : Bool) (r : LLBRes),
      llbT ctx t cap = .ok r → r.ni = specNeedsInsecure t :=
  fun ctx t cap r h => llbT_ni ctx t cap r h

/-- Witness for C3: the amended theorem applied at a concrete context
and thunk, the translation hypothesis discharged by evaluation. -/
theorem C3_needs_insecure_witness : c3res.ni = specNeedsInsecure thunkArchiveImage :=
  C3_needs_insecure_amended ctxEx thunkArchiveImage false c3res rfl

/-- Claim C4 counterexample: with two mounts both targeting the work
directory, translation's workdir source sub is the second mount's
source path ("b"), not the first's ("a", as shown by translating the
thunk with only the first mount). -/
theorem C4_last_workdir_counterexample :
    (llbT ctxEx thunkTwoWorkdirMounts false).map LLBRes.sourcePath = .ok "b" ∧
    (llbT ctxEx thunkOneWorkdirMount false).map LLBRes.sourcePath = .ok "a" := ⟨rfl, rfl⟩

/-- Claim C4 (amended): translation emits one mount option per thunk
mount, in order, at its resolved target (duplicate targets are all
emitted -- no first-wins dropping); a mount targeting the workdir marks
it remounted, the LAST workdir-targeting mount's source path becomes the
workdir source sub, and the base workdir mount is re-added exactly when
no mount targets the workdir (with the image's source sub, and the
result's source path then stays the image's). -/
theorem C4_mount_precedence_amended :
    ∀ ctx : BuildkitCtx,
      (∀ (ms : List ThunkMount) (sp : String) (ni rm : Bool) (pm : PMRes),
        processMountsT ctx ms sp ni rm = .ok pm →
          pm.opts.map optTarget = ms.map (fun m => some (resolveTarget m.target)) ∧
          pm.remounted = (rm || ms.any targetsWorkdir) ∧
          (match (ms.filter targetsWorkdir).getLast? with
           | none => pm.sourcePath = sp
           | some mLast => ∃ m, initializeMountT ctx mLast.source workDir = .ok m ∧
               pm.sourcePath = m.sourcePath)) ∧
      (∀ (t : Thunk) (cap : Bool) (r : LLBRes), llbT ctx t cap = .ok r →
        ∃ ir pm, imageRefT ctx t.image = .ok ir ∧
          processMountsT ctx t.mounts ir.sourcePath (ir.ni || t.insecure) false = .ok pm ∧
          r.sourcePath = pm.sourcePath ∧
          r.opts.countP isBaseWorkdirRemount =
            (if t.mounts.any targetsWorkdir then 0 else 1)) := by
  intro ctx
  constructor
  · intro ms sp ni rm pm h
    exact ⟨(processMountsT_opts ctx ms sp ni rm pm h).1,
      processMountsT_remounted ctx ms sp ni rm pm h,
      processMountsT_sourcePath ctx ms sp ni rm pm h⟩
  · intro t cap r h
    obtain ⟨ir, pm, hir, hpm, hr⟩ := llbT_decomp ctx t cap r h
    refine ⟨ir, pm, hir, hpm, ?_, llbT_remount_count ctx t cap r h⟩
    rw [hr]

/-- Witness for C4: the amended theorem applied at a concrete context
and thunk with a workdir-targeting mount: no base workdir re-add. -/
theorem C4_mount_precedence_witness :
    c4res.opts.countP isBaseWorkdirRemount = 0 := by
  obtain ⟨ir, pm, hir, hpm, hsp, hc⟩ :=
    (C4_mount_precedence_amended ctxEx).2 thunkTwoWorkdirMounts false c4res rfl
  rw [hc]
  rfl

/-- Claim C5: every successful translation's option list carries exactly
one entrypoint argument list, `/bass/shim run /bass/io/in`; the
`_BASS_OUTPUT=/bass/io/out` env addition is present iff stdout capture
was requested; the Run driver requests capture exactly for non-discard
writers; and the read-back step copies the exported out file to the
writer. -/
theorem C5_shim_entrypoint :
    ∀ (ctx : BuildkitCtx) (t : Thunk) (cap : Bool) (r : LLBRes),
      llbT ctx t cap = .ok r →
      (r.opts.filter isArgsOpt = [.argsList [shimExePath, "run", inputFile]] ∧
        ((RunOption.addEnv "_BASS_OUTPUT" outputFile) ∈ r.opts ↔ cap = true)) ∧
      (∀ w, captureRequested w = true ↔ w ≠ .discard) ∧
      (∀ content w, readBack (some content) w = .ok (writeTo w content)) := by
  intro ctx t cap r h
  refine ⟨llbT_args_env ctx t cap r h, ?_, ?_⟩
  · intro w; cases w <;> simp [captureRequested]
  · intro content w; rfl

/-- Witness for C5: the theorem applied at a concrete context and thunk
with capture requested, the translation hypothesis discharged by
evaluation. -/
theorem C5_shim_entrypoint_witness :
    c5res.opts.filter isArgsOpt = [.argsList [shimExePath, "run", inputFile]] ∧
    ((RunOption.addEnv "_BASS_OUTPUT" outputFile) ∈ c5res.opts ↔ true = true) :=
  (C5_shim_entrypoint ctxEx thunkNop true c5res rfl).1

/-- Claim C6 counterexample: a file-based image ref (no repository)
yields an error from `Ref()`, not a thunk-output path plus tag. -/
theorem C6_file_ref_counterexample :
    ThunkImageRef.refString
        (.mk ⟨"linux", ""⟩ "" (some (.mk thunkNop (.file "image.tar"))) "v2" "") =
      .error "ref does not refer to a repository" := rfl

/-- Claim C6 (amended): `Ref()` renders `repo@digest` when a digest is
present, else `repo:tag` when a tag is present, else `repo:latest`; and
for any ref with an empty repository -- in particular every file-based
ref -- it returns the no-repository error instead of a string. -/
theorem C6_ref_string_amended :
    ∀ (platform : Platform) (repository : String) (file : Option ThunkPath) (tag digest : String),
      (repository = "" →
        ThunkImageRef.refString (.mk platform repository file tag digest) =
          .error "ref does not refer to a repository") ∧
      (repository ≠ "" → digest ≠ "" →
        ThunkImageRef.refString (.mk platform repository file tag digest) =
          .ok (repository ++ "@" ++ digest)) ∧
      (repository ≠ "" → digest = "" → tag ≠ "" →
        ThunkImageRef.refString (.mk platform repository file tag digest) =
          .ok (repository ++ ":" ++ tag)) ∧
      (repository ≠ "" → digest = "" → tag = "" →
        ThunkImageRef.refString (.mk platform repository file tag digest) =
          .ok (repository ++ ":latest")) := by
  intro platform repository file tag digest
  refine ⟨?_, ?_, ?_, ?_⟩
  · intro h; simp [ThunkImageRef.refString, h]
  · intro h1 h2; simp [ThunkImageRef.refString, h1, h2]
  · intro h1 h2 h3; simp [ThunkImageRef.refString, h1, h2, h3]
  · intro h1 h2 h3; simp [ThunkImageRef.refString, h1, h2, h3]

/-- Witness for C6: the amended theorem applied at a concrete
repository ref with a digest. -/
theorem C6_ref_string_witness :
    ThunkImageRef.refString (.mk ⟨"linux", ""⟩ "ubuntu" none "" "sha256:abc") =
      .ok "ubuntu@sha256:abc" :=
  (C6_ref_string_amended ⟨"linux", ""⟩ "ubuntu" none "" "sha256:abc").2.1
    (by decide) (by decide)

/-- Claim C7: worker-platform negotiation fails whenever two workers
report different platforms and stores the common platform otherwise;
shim selection errors exactly when the embedded shim table has no entry
for the worker architecture. -/
theorem C7_platform_shim :
    (∀ (ws : List Platform) (a b : Platform), a ∈ ws → b ∈ ws → a ≠ b →
      ∃ e, pickPlatform ws = .error e) ∧
    (∀ (ws : List Platform) (p : Platform), ws ≠ [] → (∀ q ∈ ws, q = p) →
      pickPlatform ws = .ok p) ∧
    (∀ ctx : BuildkitCtx,
      (List.lookup ("exe." ++ ctx.arch) ctx.shims = none →
        shimT ctx = .error (.noShimFound ctx.arch)) ∧
      (∀ bin, List.lookup ("exe." ++ ctx.arch) ctx.shims = some bin →
        shimT ctx = .ok bin)) := by
  have hok : ∀ (ws : List Platform) (p : Platform), pickPlatform ws = .ok p →
      ∀ a ∈ ws, a = p := by
    intro ws p h a ha
    match ws, ha with
    | w :: rest, ha =>
      unfold pickPlatform pickPlatform.go at h
      obtain ⟨h1, h2⟩ := pickGo_ok w rest p h
      rcases List.mem_cons.mp ha with h3 | h3
      · subst h3; exact h1
      · exact h2 a h3
  refine ⟨?_, ?_, ?_⟩
  · intro ws a b hma hmb hne
    cases hres : pickPlatform ws with
    | error e => exact ⟨e, rfl⟩
    | ok p =>
      exact absurd ((hok ws p hres a hma).trans (hok ws p hres b hmb).symm) hne
  · intro ws p hne hall
    match ws with
    | w :: rest =>
      have hw : w = p := hall w (by simp)
      subst hw
      unfold pickPlatform pickPlatform.go
      exact pickGo_all w rest (fun a ha => hall a (by simp [ha]))
  · intro ctx
    constructor
    · intro h; unfold shimT; rw [h]
    · intro bin h; unfold shimT; rw [h]

/-- Witness for C7: the theorem applied at concrete worker lists and a
concrete context, hypotheses discharged by evaluation. -/
theorem C7_platform_shim_witness :
    (∃ e, pickPlatform [⟨"linux", "amd64"⟩, ⟨"linux", "arm64"⟩] = .error e) ∧
    pickPlatform [⟨"linux", "amd64"⟩, ⟨"linux", "amd64"⟩] = .ok ⟨"linux", "amd64"⟩ ∧
    shimT ctxEx = .ok "shimbytes" := by
  refine ⟨?_, ?_, ?_⟩
  · exact C7_platform_shim.1 _ ⟨"linux", "amd64"⟩ ⟨"linux", "arm64"⟩
      (by simp) (by simp) (by decide)
  · exact C7_platform_shim.2.1 _ _ (by simp) (by decide)
  · exact (C7_platform_shim.2.2 ctxEx).2 "shimbytes" (by rfl)

/-- Claim C8 counterexample: when the solver's prune call returns an
error after streaming a record, the record sits in the unflushed table
buffer, nothing is printed, and no total line is emitted. -/
theorem C8_error_flush_counterexample :
    (pruneT [⟨"layer1", 100⟩] (some "boom")).1.flushedOut = [] ∧
    (pruneT [⟨"layer1", 100⟩] (some "boom")).1.buffered = ["pruned layer1"] ∧
    (pruneT [⟨"layer1", 100⟩] (some "boom")).2 = .error "boom" := ⟨rfl, rfl, rfl⟩

/-- Claim C8 (amended): all streamed usage records are formatted into
the buffered table writer in stream order even when the prune call
errors, but on error the function returns before writing the running
total and before flushing; only on success is the total line written
and the buffer flushed. -/
theorem C8_prune_amended :
    (∀ (records : List UsageInfo) (e : String),
      pruneT records (some e) = (⟨records.map pruneLine, []⟩, .error e)) ∧
    (∀ records : List UsageInfo,
      pruneT records none =
        (⟨[], records.map pruneLine ++
            ["total: " ++ toString ((records.map UsageInfo.size).sum)]⟩, .ok ())) := by
  constructor
  · intro records e
    unfold pruneT
    rcases hpl : printLoop ⟨[], []⟩ records with ⟨tw, total⟩
    dsimp only
    have h1 : tw = ⟨records.map pruneLine, []⟩ := by
      have h2 := printLoop_fst records ⟨[], []⟩
      rw [hpl] at h2
      simpa using h2
    rw [h1]
  · intro records
    unfold pruneT
    rcases hpl : printLoop ⟨[], []⟩ records with ⟨tw, total⟩
    dsimp only
    have h1 : tw = ⟨records.map pruneLine, []⟩ := by
      have h2 := printLoop_fst records ⟨[], []⟩
      rw [hpl] at h2
      simpa using h2
    have h3 : total = (records.map UsageInfo.size).sum := by
      have h4 := printLoop_snd records ⟨[], []⟩
      rw [hpl] at h4
      simpa using h4
    rw [h1, h3]
    simp [twFlush, twWrite]

/-- Claim C9: runtime registry initialization returns the
unknown-runtime error exactly when no constructor is registered under
the configured name, and otherwise returns the registered constructor's
result on the pool, addresses and nested config. -/
theorem C9_registry_lookup :
    ∀ (π α γ ρ : Type) (registry : List (String × (π → α → γ → Except RegistryErr ρ)))
      (name : String) (pool : π) (addrs : α) (cfg : γ),
      (List.lookup name registry = none →
        initRuntime registry name pool addrs cfg = .error (.unknownRuntime name)) ∧
      (∀ ctor, List.lookup name registry = some ctor →
        initRuntime registry name pool addrs cfg = ctor pool addrs cfg) := by
  intro π α γ ρ registry name pool addrs cfg
  constructor
  · intro h; unfold initRuntime; rw [h]
  · intro ctor h; unfold initRuntime; rw [h]

/-- Witness for C9: the theorem applied at a concrete registry, for
both a missing and a present name. -/
theorem C9_registry_lookup_witness :
    initRuntime (π := Unit) (α := Unit) (γ := Unit) (ρ := Nat)
        [("buildkit", fun _ _ _ => .ok 1)] "docker" () () () =
      .error (.unknownRuntime "docker") ∧
    initRuntime (π := Unit) (α := Unit) (γ := Unit) (ρ := Nat)
        [("buildkit", fun _ _ _ => .ok 1)] "buildkit" () () () = .ok 1 := by
  constructor
  · exact (C9_registry_lookup Unit Unit Unit Nat
      [("buildkit", fun _ _ _ => .ok 1)] "docker" () () ()).1 rfl
  · exact (C9_registry_lookup Unit Unit Unit Nat
      [("buildkit", fun _ _ _ => .ok 1)] "buildkit" () () ()).2 _ rfl

/-- Claim C10: when the exported output file is absent or cannot be
opened, the Run/Read read-back step returns success and writes nothing
to the caller's writer; the open error is dropped. -/
theorem C10_missing_output_ignored :
    ∀ w, readBack none w = .ok w := fun _ => rfl

end Bass
